import Mathlib

/-!
Verification of the schedule-sync pipeline (`src/xml_handler.py`,
`src/downloader.py`, `src/processor.py`, `src/utils.py`) against its
natural-language specification.  Python code is shallowly embedded:
pure functions become Lean functions, the stateful `XmlTimeAdjuster`
statistics become explicit state passing, filesystem effects become
explicit state records or operation traces, and fallible code returns
`Except`/`Option`.
-/

/- ### Model of `xml_handler.XmlTimeAdjuster` timestamps

`parse_datetime` calls `datetime.strptime(dt_part, "%Y%m%d%H%M%S")`.
CPython's `_strptime` compiles the format to the anchored regex
`(?P<Y>\d\d\d\d)(?P<m>1[0-2]|0[1-9]|[1-9])(?P<d>3[01]|[12]\d|0[1-9]|[1-9])`
`(?P<H>2[0-3]|[0-1]\d|\d)(?P<M>[0-5]\d|\d)(?P<S>6[01]|[0-5]\d|\d)`,
requires the match to consume the whole string ("unconverted data
remains" otherwise), converts each captured group with `int`, and then
builds a `datetime`, which raises `ValueError` (the code then returns
`None`) when a field is out of range — year outside 1..9999, a day that
does not exist in the month, or a 60/61 leap second.  The matchers
below implement exactly that regex, alternative by alternative in the
regex's order, with standard depth-first backtracking, so 1–2-digit
month/day/hour/minute/second fields (e.g. `"202511123045"`) parse just
as they do in CPython.  Digits are ASCII digits. -/

structure DateTime where
  year : Nat
  month : Nat
  day : Nat
  hour : Nat
  minute : Nat
  second : Nat
deriving DecidableEq

/-- Gregorian leap-year rule used by Python `datetime` (proleptic). -/
def isLeapYear (y : Nat) : Bool :=
  (y % 4 == 0 && y % 100 != 0) || y % 400 == 0

/-- Days in a month, as enforced by the `datetime` constructor. -/
def daysInMonth (y m : Nat) : Nat :=
  if m == 2 then (if isLeapYear y then 29 else 28)
  else if m == 4 || m == 6 || m == 9 || m == 11 then 30
  else 31

/-- ASCII decimal digit test (the character class `strptime` matches). -/
def isDigitChar (c : Char) : Bool :=
  48 ≤ c.toNat && c.toNat ≤ 57

/-- Numeric value of a digit string, most significant first. -/
def digitsToNat (cs : List Char) : Nat :=
  cs.foldl (fun n c => n * 10 + (c.toNat - 48)) 0

/-- Model of `dt_str.split(' ')[0]`: the part of the string before the first
space (the whole string when it has no space). -/
def takeUntilSpace : List Char → List Char
  | [] => []
  | c :: cs => if c = ' ' then [] else c :: takeUntilSpace cs

/-- Digit value of an ASCII digit character. -/
def dv (c : Char) : Nat := c.toNat - 48

/-- One regex alternative that consumes two digit characters: the
captured text is `[c1, c2]`, its `int` conversion `digitsToNat`. -/
def cand2 (c1 c2 : Char) (rest : List Char) (cond : Bool) :
    List (Nat × List Char) :=
  if isDigitChar c1 && isDigitChar c2 && cond then
    [(digitsToNat [c1, c2], rest)]
  else []

/-- One regex alternative that consumes a single digit character. -/
def cand1 (c1 : Char) (rest : List Char) (cond : Bool) :
    List (Nat × List Char) :=
  if isDigitChar c1 && cond then [(digitsToNat [c1], rest)] else []

/-- The `%Y` group `\d\d\d\d`: exactly four digits. -/
def matchYear : List Char → List (Nat × List Char)
  | c1 :: c2 :: c3 :: c4 :: rest =>
    if isDigitChar c1 && isDigitChar c2 && isDigitChar c3 && isDigitChar c4 then
      [(digitsToNat [c1, c2, c3, c4], rest)]
    else []
  | _ => []

/-- The `%m` group `1[0-2]|0[1-9]|[1-9]`, alternatives in regex order. -/
def matchMonth : List Char → List (Nat × List Char)
  | [] => []
  | [c1] => cand1 c1 [] (decide (1 ≤ dv c1))
  | c1 :: c2 :: rest =>
    cand2 c1 c2 rest ((c1 == '1') && decide (dv c2 ≤ 2)) ++
    cand2 c1 c2 rest ((c1 == '0') && decide (1 ≤ dv c2)) ++
    cand1 c1 (c2 :: rest) (decide (1 ≤ dv c1))

/-- The `%d` group `3[01]|[12]\d|0[1-9]|[1-9]`. -/
def matchDay : List Char → List (Nat × List Char)
  | [] => []
  | [c1] => cand1 c1 [] (decide (1 ≤ dv c1))
  | c1 :: c2 :: rest =>
    cand2 c1 c2 rest ((c1 == '3') && decide (dv c2 ≤ 1)) ++
    cand2 c1 c2 rest ((c1 == '1') || (c1 == '2')) ++
    cand2 c1 c2 rest ((c1 == '0') && decide (1 ≤ dv c2)) ++
    cand1 c1 (c2 :: rest) (decide (1 ≤ dv c1))

/-- The `%H` group `2[0-3]|[0-1]\d|\d`. -/
def matchHour : List Char → List (Nat × List Char)
  | [] => []
  | [c1] => cand1 c1 [] true
  | c1 :: c2 :: rest =>
    cand2 c1 c2 rest ((c1 == '2') && decide (dv c2 ≤ 3)) ++
    cand2 c1 c2 rest ((c1 == '0') || (c1 == '1')) ++
    cand1 c1 (c2 :: rest) true

/-- The `%M` group `[0-5]\d|\d`. -/
def matchMinute : List Char → List (Nat × List Char)
  | [] => []
  | [c1] => cand1 c1 [] true
  | c1 :: c2 :: rest =>
    cand2 c1 c2 rest (decide (dv c1 ≤ 5)) ++
    cand1 c1 (c2 :: rest) true

/-- The `%S` group `6[01]|[0-5]\d|\d`. -/
def matchSecond : List Char → List (Nat × List Char)
  | [] => []
  | [c1] => cand1 c1 [] true
  | c1 :: c2 :: rest =>
    cand2 c1 c2 rest ((c1 == '6') && decide (dv c2 ≤ 1)) ++
    cand2 c1 c2 rest (decide (dv c1 ≤ 5)) ++
    cand1 c1 (c2 :: rest) true

/-- First success of `f` over a candidate list: the backtracking order
of a regex engine trying alternatives left to right, depth first. -/
def firstSome {α β : Type} (f : α → Option β) : List α → Option β
  | [] => none
  | a :: as =>
    match f a with
    | some b => some b
    | none => firstSome f as

/-- The full anchored regex of `strptime("%Y%m%d%H%M%S")`: the first
(in alternative order) assignment of the six groups that consumes the
entire string, as `(year, month, day, hour, minute, second)`. -/
def strptimeYmdHMS (cs : List Char) :
    Option (Nat × Nat × Nat × Nat × Nat × Nat) :=
  firstSome (fun yc =>
    firstSome (fun mc =>
      firstSome (fun dc =>
        firstSome (fun hc =>
          firstSome (fun mic =>
            firstSome (fun sc =>
              if sc.2 = [] then
                some (yc.1, mc.1, dc.1, hc.1, mic.1, sc.1)
              else none)
              (matchSecond mic.2))
            (matchMinute hc.2))
          (matchHour dc.2))
        (matchDay mc.2))
      (matchMonth yc.2))
    (matchYear cs)

/-- Embeds `XmlTimeAdjuster.parse_datetime`: strip everything from the
first space on (the timezone token), run the `strptime` regex on the
rest, then apply the `datetime` constructor's range checks (year
1..9999, day valid for the month, no 60/61 leap second; the month,
hour and minute ranges are already regex-guaranteed but `datetime`
checks them too); `None` on any failure. -/
def parse_datetime (s : String) : Option DateTime :=
  match strptimeYmdHMS (takeUntilSpace s.data) with
  | none => none
  | some (y, mo, d, h, mi, sec) =>
    if 1 ≤ y ∧ y ≤ 9999 ∧ 1 ≤ mo ∧ mo ≤ 12 ∧ 1 ≤ d ∧ d ≤ daysInMonth y mo ∧
        h ≤ 23 ∧ mi ≤ 59 ∧ sec ≤ 59 then
      some ⟨y, mo, d, h, mi, sec⟩
    else none

/-- Digit character for a value 0..9. -/
def digitChar : Nat → Char
  | 0 => '0' | 1 => '1' | 2 => '2' | 3 => '3' | 4 => '4'
  | 5 => '5' | 6 => '6' | 7 => '7' | 8 => '8' | _ => '9'

/-- Two-digit zero-padded rendering (`%m`, `%d`, `%H`, `%M`, `%S`). -/
def render2 (n : Nat) : List Char :=
  [digitChar (n / 10 % 10), digitChar (n % 10)]

/-- Rendering of `%Y` on CPython/glibc: the year is printed unpadded
(year 25 formats as `"25"`, not `"0025"`).  `datetime` years are
1..9999 — both `parse_datetime` and `addSeconds` enforce this — so at
most four digits ever occur and the last branch is exact on the
reachable domain. -/
def renderYear (n : Nat) : List Char :=
  if n < 10 then [digitChar n]
  else if n < 100 then [digitChar (n / 10 % 10), digitChar (n % 10)]
  else if n < 1000 then
    [digitChar (n / 100 % 10), digitChar (n / 10 % 10), digitChar (n % 10)]
  else
    [digitChar (n / 1000 % 10), digitChar (n / 100 % 10),
     digitChar (n / 10 % 10), digitChar (n % 10)]

/-- Embeds `XmlTimeAdjuster.format_datetime`:
`dt.strftime("%Y%m%d%H%M%S +0000")` — the year unpadded (glibc `%Y`),
every other field zero-padded to two digits, and a literal `+0000` zone
token always appended, regardless of the input's zone. -/
def format_datetime (dt : DateTime) : String :=
  ⟨renderYear dt.year ++ render2 dt.month ++ render2 dt.day ++
   render2 dt.hour ++ render2 dt.minute ++ render2 dt.second ++
   (" +0000").data⟩

/- ### Timedelta arithmetic

`start_dt + timedelta(seconds=offset_seconds)` is exact proleptic
Gregorian arithmetic; it raises `OverflowError` when the result leaves
`datetime`'s supported range (years 1..9999).  The civil-calendar
conversions below are the standard `days_from_civil`/`civil_from_days`
algorithms; Lean's `Int` division truncates toward zero exactly like
the C arithmetic they were written for. -/

def daysFromCivil (y m d : Int) : Int :=
  let y' := if m ≤ 2 then y - 1 else y
  let era := (if 0 ≤ y' then y' else y' - 399) / 400
  let yoe := y' - era * 400
  let mp := (m + 9) % 12
  let doy := (153 * mp + 2) / 5 + d - 1
  let doe := yoe * 365 + yoe / 4 - yoe / 100 + doy
  era * 146097 + doe - 719468

def civilFromDays (z : Int) : Int × Int × Int :=
  let z' := z + 719468
  let era := (if 0 ≤ z' then z' else z' - 146096) / 146097
  let doe := z' - era * 146097
  let yoe := (doe - doe / 1460 + doe / 36524 - doe / 146096) / 365
  let y := yoe + era * 400
  let doy := doe - (365 * yoe + yoe / 4 - yoe / 100)
  let mp := (5 * doy + 2) / 153
  let d := doy - (153 * mp + 2) / 5 + 1
  let m := if mp < 10 then mp + 3 else mp - 9
  (if m ≤ 2 then y + 1 else y, m, d)

/-- Seconds since the civil epoch of a `DateTime`. -/
def toSecs (dt : DateTime) : Int :=
  daysFromCivil (Int.ofNat dt.year) (Int.ofNat dt.month) (Int.ofNat dt.day) * 86400 +
    Int.ofNat (dt.hour * 3600 + dt.minute * 60 + dt.second)

/-- Inverse of `toSecs` (floor division splits days / seconds-of-day). -/
def ofSecs (t : Int) : DateTime :=
  let days := t.ediv 86400
  let sod := (t.emod 86400).toNat
  let c := civilFromDays days
  ⟨c.1.toNat, c.2.1.toNat, c.2.2.toNat, sod / 3600, sod % 3600 / 60, sod % 60⟩

/-- Lowest representable instant, `datetime.min` = 0001-01-01 00:00:00. -/
def minDateSecs : Int := toSecs ⟨1, 1, 1, 0, 0, 0⟩

/-- Highest representable instant, `datetime.max` (to second precision),
9999-12-31 23:59:59. -/
def maxDateSecs : Int := toSecs ⟨9999, 12, 31, 23, 59, 59⟩

/-- Model of `dt + timedelta(seconds=offset)`: exact shift, `none` models the
`OverflowError` raised when the result leaves `datetime`'s range. -/
def addSeconds (dt : DateTime) (offset : Int) : Option DateTime :=
  let t := toSecs dt + offset
  if minDateSecs ≤ t ∧ t ≤ maxDateSecs then some (ofSecs t) else none

/- ### Model of programs, documents and the adjuster state -/

/-- A `programme` element: its `channel` attribute and optional
`start`/`stop` attributes.  The payload (title, children) is opaque and
untouched by the code, so it is not modeled. -/
structure Program where
  channel : String
  start : Option String
  stop : Option String
deriving DecidableEq

/-- A `channel` element: `channel.get('id', 'unknown')` defaults a
missing `id` attribute to `"unknown"`. -/
structure Channel where
  id : Option String
deriving DecidableEq

/-- The guide document: the root's `channel` and `programme` children,
in document order. -/
structure XmlDoc where
  channels : List Channel
  programmes : List Program
deriving DecidableEq

/-- The mutable counters of `XmlTimeAdjuster`. -/
structure AdjusterStats where
  channels_processed : Nat
  programs_processed : Nat
  errors : List String
deriving DecidableEq

/-- Embeds `XmlTimeAdjuster.__init__`: zeroed counters, empty error list. -/
def initStats : AdjusterStats := ⟨0, 0, []⟩

/-- First half of `adjust_program_times`: read the `start` attribute
(skipped when absent or empty — `if start_attr:`), parse it (a `None`
parse silently leaves the attribute alone), shift and rewrite it.  An
exception while shifting (the `OverflowError` of `addSeconds`) escapes
to the surrounding `try`. -/
def adjustStart (p : Program) (offset : Int) : Except String Program :=
  match p.start with
  | none => Except.ok p
  | some s =>
    if s = "" then Except.ok p
    else
      match parse_datetime s with
      | none => Except.ok p
      | some dt =>
        match addSeconds dt offset with
        | none => Except.error "Erro ao ajustar programa: OverflowError"
        | some dt' => Except.ok { p with start := some (format_datetime dt') }

/-- Second half of `adjust_program_times`: same treatment for `stop`. -/
def adjustStop (p : Program) (offset : Int) : Except String Program :=
  match p.stop with
  | none => Except.ok p
  | some s =>
    if s = "" then Except.ok p
    else
      match parse_datetime s with
      | none => Except.ok p
      | some dt =>
        match addSeconds dt offset with
        | none => Except.error "Erro ao ajustar programa: OverflowError"
        | some dt' => Except.ok { p with stop := some (format_datetime dt') }

/-- Embeds `XmlTimeAdjuster.adjust_program_times`: adjust `start`, then `stop`,
then `self.programs_processed += 1`; the enclosing `try`/`except`
appends a message to `self.errors` if an exception was raised (the
attributes already written stay written). -/
def adjust_program_times (p : Program) (offset : Int) (st : AdjusterStats) :
    Program × AdjusterStats :=
  match adjustStart p offset with
  | Except.error e => (p, { st with errors := st.errors ++ [e] })
  | Except.ok p1 =>
    match adjustStop p1 offset with
    | Except.error e => (p1, { st with errors := st.errors ++ [e] })
    | Except.ok p2 =>
      (p2, { st with programs_processed := st.programs_processed + 1 })

/-- Model of `channel_offsets.get(channel_id, default_offset)` on the Python
dict, modeled as an association list. -/
def lookupOffset (m : List (String × Int)) (k : String) (dflt : Int) : Int :=
  match m.find? (fun e => e.1 == k) with
  | some e => e.2
  | none => dflt

/-- The inner loop of `process_xml`: adjust, in document order, every
programme whose `channel` attribute equals the channel id being
processed (`root.findall("programme[@channel='id']")`). -/
def adjustPrograms : List Program → String → Int → AdjusterStats →
    List Program × AdjusterStats
  | [], _, _, st => ([], st)
  | p :: ps, cid, off, st =>
    if p.channel = cid then
      let r := adjust_program_times p off st
      let rest := adjustPrograms ps cid off r.2
      (r.1 :: rest.1, rest.2)
    else
      let rest := adjustPrograms ps cid off st
      (p :: rest.1, rest.2)

/-- The outer loop of `process_xml`: for each `channel` element resolve
its offset, adjust its programmes, and bump `channels_processed`. -/
def processChannels : List Channel → List Program → List (String × Int) →
    Int → AdjusterStats → List Program × AdjusterStats
  | [], ps, _, _, st => (ps, st)
  | c :: cs, ps, offs, dflt, st =>
    let cid := c.id.getD "unknown"
    let off := lookupOffset offs cid dflt
    let r := adjustPrograms ps cid off st
    processChannels cs r.1 offs dflt
      { r.2 with channels_processed := r.2.channels_processed + 1 }

/-- Embeds `XmlTimeAdjuster.process_xml` on an in-memory document (the
provenance comment inserted at the end and the serialization to disk do
not touch channels or programmes and are not modeled). -/
def process_xml (doc : XmlDoc) (channel_offsets : List (String × Int))
    (default_offset : Int) (st : AdjusterStats) : XmlDoc × AdjusterStats :=
  let r := processChannels doc.channels doc.programmes channel_offsets default_offset st
  ({ doc with programmes := r.1 }, r.2)

/- ### Model of `downloader.SourceDownloader`

The durable state under `data/raw` is three files: the raw download
(`source_data.xml.gz`), the decompressed document (`source_data.xml`)
and the stored hash (`source_hash.txt`).  File contents are byte lists.
The cryptographic hash and the gzip decompressor are parameters of the
model: `hashFn` stands for SHA-256 (collision-free on the inputs at
hand, hence the injectivity hypothesis where a claim needs it) and
`gunzip` returns `none` on a corrupt archive. -/

structure DlState where
  rawFile : Option (List Nat)
  extractedFile : Option (List Nat)
  storedHash : Option (List Nat)
deriving DecidableEq

/-- Embeds `SourceDownloader.download_and_extract` after a successful HTTP
download of `content` (a network failure raises before any of this
runs): write the raw bytes, hash them, compare with the stored hash;
when equal, not forced, and the extracted copy still exists, report
`(False, path)`; otherwise decompress (raising `DecompressError` on
failure), store the new hash and report `(True, path)`. -/
def download_and_extract (hashFn : List Nat → List Nat)
    (gunzip : List Nat → Option (List Nat))
    (force : Bool) (content : List Nat) (st : DlState) :
    Except String (Bool × DlState) :=
  if !force && (st.storedHash == some (hashFn content)) && st.extractedFile.isSome
  then
    Except.ok (false, { st with rawFile := some content })
  else
    match gunzip content with
    | none => Except.error "DecompressError"
    | some extracted =>
      Except.ok (true,
        { rawFile := some content, extractedFile := some extracted,
          storedHash := some (hashFn content) })

/- ### Model of `processor.ScheduleProcessor.cleanup_old_files`

The processed directory is a list of entries (name as a character list,
plus a modification time).  Deletion can fail per file (`os.remove`
raising); each loop iteration catches its own exception, so one failure
neither aborts the run nor stops later deletions.  `deleteOk` is the
per-path success oracle. -/

structure FileEntry where
  name : List Char
  mtime : Nat
deriving DecidableEq

/-- Model of `file.startswith('schedule_adjusted_') and file.endswith('.xml')`. -/
def generationPattern (name : List Char) : Bool :=
  ("schedule_adjusted_").data.isPrefixOf name && (".xml").data.isSuffixOf name

/-- Model of `processed_files.sort(key=lambda x: x[1], reverse=True)`: newest
first. -/
def mtimeGe (a b : FileEntry) : Prop := b.mtime ≤ a.mtime

instance : DecidableRel mtimeGe := fun a b => Nat.decLe b.mtime a.mtime

instance : IsTotal FileEntry mtimeGe := ⟨fun a b => Nat.le_total b.mtime a.mtime⟩

instance : IsTrans FileEntry mtimeGe :=
  ⟨fun _ _ _ hab hbc => Nat.le_trans hbc hab⟩

/-- Model of `file_path + '.gz'`. -/
def gzName (name : List Char) : List Char := name ++ (".gz").data

/-- One iteration of the deletion loop: `os.remove(file_path)` (failure
caught, iteration ends) then, if the compressed sibling exists,
`os.remove(gz_path)` (failure also caught).  Returns the names actually
removed. -/
def deletionsFor (dir : List FileEntry) (deleteOk : List Char → Bool)
    (v : FileEntry) : List (List Char) :=
  if deleteOk v.name then
    v.name ::
      (if (dir.any (fun f => f.name == gzName v.name)) && deleteOk (gzName v.name)
       then [gzName v.name] else [])
  else []

/-- Embeds `ScheduleProcessor.cleanup_old_files`: when cleanup is enabled,
enumerate the generation files, sort newest first, and best-effort
delete every one beyond `max_files` (with its `.gz` sibling).  Returns
the directory contents afterwards. -/
def cleanup_old_files (enabled : Bool) (maxFiles : Nat) (dir : List FileEntry)
    (deleteOk : List Char → Bool) : List FileEntry :=
  if !enabled then dir
  else
    let matched := dir.filter (fun f => generationPattern f.name)
    let sorted := List.insertionSort mtimeGe matched
    let victims := sorted.drop maxFiles
    let deleted := (victims.map (deletionsFor dir deleteOk)).flatten
    dir.filter (fun f => !(deleted.contains f.name))

/- ### Model of `processor.ScheduleProcessor.process_schedules` offset
extraction and of the configuration loader/validator -/

/-- One entry of the `channels` mapping as `process_schedules` reads
it: `config.get('enabled', True)` and `config.get('offset', 0)`. -/
structure ChannelSettings where
  offset : Option Int
  enabled : Option Bool
deriving DecidableEq

/-- The offset-extraction loop of `process_schedules`: only channels
whose `enabled` resolves to true get an entry in `channel_offsets`;
disabled channels are simply not listed (so `process_xml` falls back to
`default_offset` for them). -/
def extract_channel_offsets (channels : List (String × ChannelSettings)) :
    List (String × Int) :=
  channels.filterMap (fun e =>
    if e.2.enabled.getD true then some (e.1, e.2.offset.getD 0) else none)

/-- JSON values as far as `utils.validate_config` distinguishes them:
an integer, an object, or anything else. -/
inductive JVal where
  | vint (n : Int)
  | vdict (entries : List (String × JVal))
  | vother

/-- Key lookup in a JSON object. -/
def jlookup (entries : List (String × JVal)) (k : String) : Option JVal :=
  match entries.find? (fun e => e.1 == k) with
  | some e => some e.2
  | none => none

/-- A channel entry check of `validate_config`: it must be a dict with
an integer `offset`. -/
def validChannel : JVal → Bool
  | JVal.vdict cc =>
    match jlookup cc "offset" with
    | some (JVal.vint _) => true
    | _ => false
  | _ => false

/-- Embeds `utils.validate_config`: required keys `default_offset` and
`channels` present, `default_offset` an integer, `channels` a dict,
every channel entry a dict with an integer `offset`. -/
def validate_config (config : List (String × JVal)) : Bool :=
  (jlookup config "default_offset").isSome &&
  (jlookup config "channels").isSome &&
  (match jlookup config "default_offset" with
   | some (JVal.vint _) => true
   | _ => false) &&
  (match jlookup config "channels" with
   | some (JVal.vdict chans) => chans.all (fun c => validChannel c.2)
   | _ => false)

/-- Embeds `ScheduleProcessor.load_configuration` on an existing config file
with the given contents: load it, and when `default_offset` is absent
**insert the processor's default and persist the file** (`save_config`),
then validate; `ValueError("Configuração inválida")` when validation
fails.  The returned boolean records whether the file was re-saved. -/
def load_configuration (fileContents : List (String × JVal))
    (processorDefault : Int) :
    Except String (List (String × JVal) × Bool) :=
  let withDefault :=
    if (jlookup fileContents "default_offset").isSome then (fileContents, false)
    else (fileContents ++ [("default_offset", JVal.vint processorDefault)], true)
  if validate_config withDefault.1 then Except.ok withDefault
  else Except.error "ConfigError: Configuracao invalida"

/- ### Model of `processor.ScheduleProcessor.create_output_files` and
`run`

`create_output_files` wraps its whole body in `try`/`except` whose
handler only calls `logger.warning` — no exception leaves it.  The same
holds for `generate_report` (handler logs) and `cleanup_old_files`.
`process_schedules`, `download_source` and `load_configuration`
re-`raise`.  `run` re-raises anything that reaches it. -/

structure RunEnv where
  loadResult : Except String (List (String × JVal))
  downloadResult : Except String (Bool × String)
  processResult : Except String String
  publishResult : Except String Unit
  reportResult : Except String Unit
  cleanupResult : Except String Unit

/-- Model of `create_output_files`: the body may raise (modeled by its result
parameter), but the handler swallows the exception after a warning; the
function always returns, reporting whether the outputs were created. -/
def create_output_files_runs (body : Except String Unit) : Bool :=
  match body with
  | Except.ok _ => true
  | Except.error _ => false

/-- Model of `generate_report`: same swallow-all shape. -/
def generate_report_runs (body : Except String Unit) : Bool :=
  match body with
  | Except.ok _ => true
  | Except.error _ => false

/-- The outer `try` of `cleanup_old_files`: same swallow-all shape. -/
def cleanup_runs (body : Except String Unit) : Bool :=
  match body with
  | Except.ok _ => true
  | Except.error _ => false

/-- Embeds `ScheduleProcessor.run`: load config, download, and when updated or
forced: process, create outputs, report, clean up, return `True`;
otherwise return `False`.  Only load/download/process failures
propagate. -/
def processor_run (env : RunEnv) (force_download : Bool) : Except String Bool :=
  match env.loadResult with
  | Except.error e => Except.error e
  | Except.ok _ =>
    match env.downloadResult with
    | Except.error e => Except.error e
    | Except.ok r =>
      if r.1 || force_download then
        match env.processResult with
        | Except.error e => Except.error e
        | Except.ok _ =>
          let _pub := create_output_files_runs env.publishResult
          let _rep := generate_report_runs env.reportResult
          let _cln := cleanup_runs env.cleanupResult
          Except.ok true
      else Except.ok false

/- ### Filesystem-operation trace of `create_output_files`

For the atomicity claim the relevant fact is *which* operations touch
the well-known output path.  The body performs, in order:
`shutil.copy2(compressed_source, root_gz_path)` (when the compressed
source exists), then removal and re-creation of the two `latest`
symlinks. -/

inductive FsOp where
  | copyFile (src dst : String)
  | removeFile (p : String)
  | makeSymlink (target link : String)
  | renameFile (src dst : String)
deriving DecidableEq

/-- The operation trace of `create_output_files`.  `shutil.copy2` opens
the destination for writing in place (truncate-then-write); no
temporary file and no rename is ever issued. -/
def create_output_files_ops (outputFile processedPath processedDir : String)
    (compressedExists latestXmlExists latestGzExists : Bool) : List FsOp :=
  (if compressedExists
   then [FsOp.copyFile (processedPath ++ ".gz") outputFile] else []) ++
  (if latestXmlExists
   then [FsOp.removeFile (processedDir ++ "/latest.xml")] else []) ++
  [FsOp.makeSymlink processedPath (processedDir ++ "/latest.xml")] ++
  (if latestGzExists
   then [FsOp.removeFile (processedDir ++ "/latest.xml.gz")] else []) ++
  [FsOp.makeSymlink (processedPath ++ ".gz") (processedDir ++ "/latest.xml.gz")]

/-- The claim's atomic-replace discipline for a destination path: the
file appears via a rename and is never written in place. -/
def atomicReplace (ops : List FsOp) (dst : String) : Prop :=
  (∃ tmp, FsOp.renameFile tmp dst ∈ ops) ∧ ∀ src, FsOp.copyFile src dst ∉ ops

/- ### Claims -/

/-- Claim C2: the spec's concrete scenario — channel `test.pt`, one
programme `12:00:00`–`13:00:00`, offsets `{test.pt: 30}`, default 0 —
yields both timestamps shifted by 30 seconds, one channel and one
programme processed, and no errors. -/
theorem c2_scenario :
    process_xml
      ⟨[⟨some "test.pt"⟩],
       [⟨"test.pt", some "20250101120000 +0000", some "20250101130000 +0000"⟩]⟩
      [("test.pt", 30)] 0 initStats =
      (⟨[⟨some "test.pt"⟩],
        [⟨"test.pt", some "20250101120030 +0000", some "20250101130030 +0000"⟩]⟩,
       ⟨1, 1, []⟩) := by
  rfl

/-- Claim C6 counterexample: a config file that exists with a valid
`channels` mapping but no `default_offset` does **not** fail with
`ConfigError`; `load_configuration` silently inserts the processor's
default (30 here), persists the repaired config (`true` flag), and
succeeds. -/
theorem c6_counterexample :
    load_configuration [("channels", JVal.vdict [])] 30 =
      Except.ok ([("channels", JVal.vdict []),
                  ("default_offset", JVal.vint 30)], true) := by
  rfl

/-- Claim C6 as amended: when the config file exists but lacks
`default_offset`, `load_configuration` backfills the key with the
processor default, immediately persists the file, and — provided the
repaired config validates — succeeds; no `ConfigError` is raised for
the missing key. -/
theorem c6_amended (contents : List (String × JVal)) (d : Int)
    (hmissing : jlookup contents "default_offset" = none)
    (hvalid : validate_config
        (contents ++ [("default_offset", JVal.vint d)]) = true) :
    load_configuration contents d =
      Except.ok (contents ++ [("default_offset", JVal.vint d)], true) := by
  simp [load_configuration, hmissing, hvalid]

/-- Claim C6 amended, witnessed on a concrete config. -/
theorem c6_amended_witness :
    load_configuration
        [("channels", JVal.vdict [("ch1", JVal.vdict [("offset", JVal.vint 45)])])]
        7 =
      Except.ok ([("channels",
                   JVal.vdict [("ch1", JVal.vdict [("offset", JVal.vint 45)])]),
                  ("default_offset", JVal.vint 7)], true) :=
  c6_amended
    [("channels", JVal.vdict [("ch1", JVal.vdict [("offset", JVal.vint 45)])])]
    7 rfl rfl

/-- Claim C7 counterexample: a run in which the publish step
(`create_output_files`) fails still returns success — the handler
swallows the exception after a warning, the pipeline proceeds to the
report and cleanup steps, and `run` reports `True`. -/
theorem c7_counterexample :
    processor_run
      { loadResult := Except.ok [("channels", JVal.vdict [])],
        downloadResult := Except.ok (true, "data/raw/source_data.xml"),
        processResult := Except.ok "data/processed/schedule_adjusted_1.xml",
        publishResult := Except.error "PublishError: copy to adjusted_schedule.xml.gz failed",
        reportResult := Except.ok (),
        cleanupResult := Except.ok () } false = Except.ok true := by
  rfl

/-- Claim C7 as amended: once configuration loading, download, and
processing succeed (with the source updated), `run` returns success no
matter whether the publish, report or cleanup bodies fail — publish
failures are logged warnings, not fatal errors. -/
theorem c7_amended (env : RunEnv) (force : Bool)
    (c : List (String × JVal)) (p out : String)
    (hl : env.loadResult = Except.ok c)
    (hd : env.downloadResult = Except.ok (true, p))
    (hp : env.processResult = Except.ok out) :
    processor_run env force = Except.ok true := by
  simp [processor_run, hl, hd, hp]

/-- Claim C7 amended, witnessed on a run whose publish, report and
cleanup bodies all fail. -/
theorem c7_amended_witness :
    processor_run
      { loadResult := Except.ok [],
        downloadResult := Except.ok (true, "src.xml"),
        processResult := Except.ok "out.xml",
        publishResult := Except.error "PublishError",
        reportResult := Except.error "ReportError",
        cleanupResult := Except.error "CleanupError" } false = Except.ok true :=
  c7_amended _ false [] "src.xml" "out.xml" rfl rfl rfl

/-- Claim C9 counterexample: the publish trace on a concrete run copies
the compressed artifact straight onto the well-known output path with
`shutil.copy2` and never issues a rename, so the temp-write-then-rename
discipline the claim asserts does not hold. -/
theorem c9_counterexample :
    ¬ atomicReplace
        (create_output_files_ops "adjusted_schedule.xml.gz"
          "data/processed/schedule_adjusted_20250101_000000.xml"
          "data/processed" true true true)
        "adjusted_schedule.xml.gz" := by
  intro h
  obtain ⟨⟨tmp, hmem⟩, -⟩ := h
  simp [create_output_files_ops] at hmem

/-- Claim C9 as amended: whenever the compressed source exists, the
copy to the well-known output path is a direct in-place `shutil.copy2`
onto that path, and no rename operation of any kind appears in the
trace — the copy is not atomic with respect to concurrent readers. -/
theorem c9_amended (outputFile processedPath processedDir : String)
    (lx lg : Bool) :
    FsOp.copyFile (processedPath ++ ".gz") outputFile ∈
      create_output_files_ops outputFile processedPath processedDir true lx lg ∧
    ∀ a b, FsOp.renameFile a b ∉
      create_output_files_ops outputFile processedPath processedDir true lx lg := by
  constructor
  · simp [create_output_files_ops]
  · intro a b hmem
    rcases lx <;> rcases lg <;> simp [create_output_files_ops] at hmem

/-- Claim C3: change detection across a pair of fetches with
`force=False`.  After any successful fetch of `c₁`: a second download
whose bytes hash equal to the stored hash reports `changed=false`
(the decompressed copy exists after a successful fetch); bytes that
differ at all (hash collision-freeness is the injectivity hypothesis on
the SHA-256 stand-in) report `changed=true` and persist the new hash;
and from any state whose decompressed copy is missing, the fetch
decompresses again instead of short-circuiting. -/
theorem c3_change_detection (hashFn : List Nat → List Nat)
    (gunzip : List Nat → Option (List Nat))
    (c₁ c₂ : List Nat) (st₀ st₁ : DlState) (b₁ : Bool)
    (h1 : download_and_extract hashFn gunzip false c₁ st₀ = Except.ok (b₁, st₁)) :
    (hashFn c₂ = hashFn c₁ →
      download_and_extract hashFn gunzip false c₂ st₁ =
        Except.ok (false, { st₁ with rawFile := some c₂ })) ∧
    (Function.Injective hashFn → c₂ ≠ c₁ → ∀ e₂, gunzip c₂ = some e₂ →
      download_and_extract hashFn gunzip false c₂ st₁ =
        Except.ok (true,
          { rawFile := some c₂, extractedFile := some e₂,
            storedHash := some (hashFn c₂) })) ∧
    (∀ st e₂, st.extractedFile = none → gunzip c₂ = some e₂ →
      download_and_extract hashFn gunzip false c₂ st =
        Except.ok (true,
          { rawFile := some c₂, extractedFile := some e₂,
            storedHash := some (hashFn c₂) })) := by
  have hpost : st₁.storedHash = some (hashFn c₁) ∧
      st₁.extractedFile.isSome = true := by
    unfold download_and_extract at h1
    by_cases hcond :
        (!false && (st₀.storedHash == some (hashFn c₁)) &&
          st₀.extractedFile.isSome) = true
    · rw [if_pos hcond] at h1
      simp only [Bool.not_false, Bool.true_and, Bool.and_eq_true,
        beq_iff_eq] at hcond
      simp only [Except.ok.injEq, Prod.mk.injEq] at h1
      obtain ⟨-, rfl⟩ := h1
      exact ⟨hcond.1, hcond.2⟩
    · rw [if_neg hcond] at h1
      cases hg : gunzip c₁ with
      | none => rw [hg] at h1; exact absurd h1 (by simp)
      | some e =>
        rw [hg] at h1
        simp only [Except.ok.injEq, Prod.mk.injEq] at h1
        obtain ⟨-, rfl⟩ := h1
        exact ⟨rfl, rfl⟩
  refine ⟨?_, ?_, ?_⟩
  · intro hsame
    unfold download_and_extract
    rw [if_pos]
    simp only [Bool.not_false, Bool.true_and, Bool.and_eq_true, beq_iff_eq]
    exact ⟨by rw [hpost.1, hsame], hpost.2⟩
  · intro hinj hne e₂ hg
    unfold download_and_extract
    rw [if_neg, hg]
    simp only [Bool.not_false, Bool.true_and, Bool.and_eq_true, beq_iff_eq]
    intro hcontra
    exact hne (hinj (by
      have := hcontra.1
      rw [hpost.1] at this
      exact (Option.some.injEq _ _ ▸ this).symm))
  · intro st e₂ hnone hg
    unfold download_and_extract
    rw [if_neg, hg]
    simp [hnone]

/-- Claim C3, witnessed: first fetch of `[0]` from the empty state,
then a differing second download `[1]` with the identity as the
(injective) hash function reports `changed=true` and stores the new
hash. -/
theorem c3_change_detection_witness :
    download_and_extract id (fun x => some x) false [1]
        ⟨some [0], some [0], some [0]⟩ =
      Except.ok (true, ⟨some [1], some [1], some [1]⟩) :=
  ((c3_change_detection id (fun x => some x) [0] [1] ⟨none, none, none⟩
      ⟨some [0], some [0], some [0]⟩ true rfl).2.1
    (fun _ _ h => h) (by decide) [1] rfl)

/-- Exactly one value sits under a key of an association list whose
keys are `Nodup` (Python dict keys are unique by construction). -/
theorem assoc_value_unique {l : List (String × ChannelSettings)}
    (hnd : (l.map Prod.fst).Nodup)
    {k : String} {v v' : ChannelSettings}
    (h1 : (k, v) ∈ l) (h2 : (k, v') ∈ l) : v = v' := by
  induction l with
  | nil => cases h1
  | cons a l ih =>
    simp only [List.map_cons, List.nodup_cons] at hnd
    rcases List.mem_cons.mp h1 with rfl | h1'
    · rcases List.mem_cons.mp h2 with h | h2'
      · exact (Prod.mk.injEq _ _ _ _ ▸ h.symm).2
      · exact absurd (List.mem_map.mpr ⟨(k, v'), h2', rfl⟩) hnd.1
    · rcases List.mem_cons.mp h2 with rfl | h2'
      · exact absurd (List.mem_map.mpr ⟨(k, v), h1', rfl⟩) hnd.1
      · exact ih hnd.2 h1' h2'

/-- A channel listed as disabled gets no entry in `channel_offsets`, so
the dict lookup in `process_xml` falls back to the default. -/
theorem find_extract_disabled_none (cfg : List (String × ChannelSettings))
    (cid : String) (cs : ChannelSettings)
    (hmem : (cid, cs) ∈ cfg) (hdis : cs.enabled = some false)
    (hnd : (cfg.map Prod.fst).Nodup) :
    (extract_channel_offsets cfg).find? (fun e => e.1 == cid) = none := by
  rw [List.find?_eq_none]
  intro e he
  rw [extract_channel_offsets, List.mem_filterMap] at he
  obtain ⟨a, ha, hfa⟩ := he
  by_cases hen : a.2.enabled.getD true = true
  · rw [if_pos hen] at hfa
    simp only [Option.some.injEq] at hfa
    subst hfa
    simp only [beq_iff_eq]
    intro hkey
    have ha' : (cid, a.2) ∈ cfg := by
      have : a = (cid, a.2) := by
        rw [← hkey]
      exact this ▸ ha
    have : a.2 = cs := assoc_value_unique hnd ha' hmem
    rw [this, hdis] at hen
    simp at hen
  · rw [if_neg hen] at hfa
    cases hfa

/-- Claim C5: a channel present in the configuration with
`enabled=false` resolves to `default_offset` (not its configured
offset), and its programmes are still adjusted — `process_xml` on a
document listing that channel runs the full per-programme adjustment
loop with the default offset and still counts the channel. -/
theorem c5_disabled_uses_default (cfg : List (String × ChannelSettings))
    (cid : String) (cs : ChannelSettings)
    (hmem : (cid, cs) ∈ cfg) (hdis : cs.enabled = some false)
    (hnd : (cfg.map Prod.fst).Nodup) (dflt : Int) :
    lookupOffset (extract_channel_offsets cfg) cid dflt = dflt ∧
    ∀ (ps : List Program) (st : AdjusterStats),
      process_xml ⟨[⟨some cid⟩], ps⟩ (extract_channel_offsets cfg) dflt st =
        (⟨[⟨some cid⟩], (adjustPrograms ps cid dflt st).1⟩,
         { (adjustPrograms ps cid dflt st).2 with
           channels_processed :=
             (adjustPrograms ps cid dflt st).2.channels_processed + 1 }) := by
  have hfind := find_extract_disabled_none cfg cid cs hmem hdis hnd
  have hlook : lookupOffset (extract_channel_offsets cfg) cid dflt = dflt := by
    rw [lookupOffset, hfind]
  refine ⟨hlook, fun ps st => ?_⟩
  simp [process_xml, processChannels, Option.getD, hlook]

/-- Claim C5, witnessed: a disabled channel with configured offset 45
is adjusted with the default offset 30 instead, and its programme is
processed, not skipped. -/
theorem c5_disabled_uses_default_witness :
    lookupOffset (extract_channel_offsets [("dis.pt", ⟨some 45, some false⟩)])
        "dis.pt" 30 = 30 ∧
    process_xml
        ⟨[⟨some "dis.pt"⟩], [⟨"dis.pt", some "20250101120000 +0000", none⟩]⟩
        (extract_channel_offsets [("dis.pt", ⟨some 45, some false⟩)]) 30
        initStats =
      (⟨[⟨some "dis.pt"⟩], [⟨"dis.pt", some "20250101120030 +0000", none⟩]⟩,
       ⟨1, 1, []⟩) := by
  have h := c5_disabled_uses_default [("dis.pt", ⟨some 45, some false⟩)]
    "dis.pt" ⟨some 45, some false⟩ (by simp) rfl (by simp) 30
  exact ⟨h.1, by rw [h.2]; rfl⟩

/-- The adjustment loop never drops or duplicates programmes. -/
theorem adjustPrograms_length (ps : List Program) (cid : String) (off : Int)
    (st : AdjusterStats) :
    (adjustPrograms ps cid off st).1.length = ps.length := by
  induction ps generalizing st with
  | nil => rfl
  | cons p ps ih =>
    rw [adjustPrograms]
    by_cases h : p.channel = cid
    · simp only [if_pos h, List.length_cons, ih]
    · simp only [if_neg h, List.length_cons, ih]

/-- A programme whose `channel` attribute differs from the channel
being processed passes through the adjustment loop untouched, at its
position, contributing nothing to the statistics. -/
theorem adjustPrograms_frame (p : Program) (cid : String) (off : Int)
    (hne : ¬ p.channel = cid) :
    ∀ (ps1 ps2 : List Program) (st : AdjusterStats),
      adjustPrograms (ps1 ++ p :: ps2) cid off st =
        ((adjustPrograms (ps1 ++ ps2) cid off st).1.take ps1.length ++
           p :: (adjustPrograms (ps1 ++ ps2) cid off st).1.drop ps1.length,
         (adjustPrograms (ps1 ++ ps2) cid off st).2) := by
  intro ps1
  induction ps1 with
  | nil =>
    intro ps2 st
    simp [adjustPrograms, hne]
  | cons q ps1 ih =>
    intro ps2 st
    simp only [List.cons_append, adjustPrograms]
    by_cases hq : q.channel = cid
    · simp only [if_pos hq, List.append_eq, ih, List.length_cons,
        List.take_succ_cons, List.drop_succ_cons, List.cons_append]
    · simp only [if_neg hq, List.append_eq, ih, List.length_cons,
        List.take_succ_cons, List.drop_succ_cons, List.cons_append]

/-- Lifting `adjustPrograms_frame` through the outer channel loop. -/
theorem processChannels_frame (p : Program) (chs : List Channel)
    (h : ∀ c ∈ chs, ¬ c.id.getD "unknown" = p.channel) :
    ∀ (ps1 ps2 : List Program) (offs : List (String × Int)) (dflt : Int)
      (st : AdjusterStats),
      processChannels chs (ps1 ++ p :: ps2) offs dflt st =
        ((processChannels chs (ps1 ++ ps2) offs dflt st).1.take ps1.length ++
           p :: (processChannels chs (ps1 ++ ps2) offs dflt st).1.drop ps1.length,
         (processChannels chs (ps1 ++ ps2) offs dflt st).2) := by
  induction chs with
  | nil =>
    intro ps1 ps2 offs dflt st
    simp [processChannels, List.take_left, List.drop_left]
  | cons c cs ih =>
    intro ps1 ps2 offs dflt st
    have hc : ¬ p.channel = c.id.getD "unknown" :=
      fun hx => h c (List.mem_cons_self c cs) hx.symm
    simp only [processChannels]
    rw [adjustPrograms_frame p _ _ hc ps1 ps2 st]
    have hlen : ps1.length ≤
        (adjustPrograms (ps1 ++ ps2) (c.id.getD "unknown")
          (lookupOffset offs (c.id.getD "unknown") dflt) st).1.length := by
      rw [adjustPrograms_length, List.length_append]
      exact Nat.le_add_right _ _
    have hsplit :
        (adjustPrograms (ps1 ++ ps2) (c.id.getD "unknown")
            (lookupOffset offs (c.id.getD "unknown") dflt) st).1.take ps1.length ++
          (adjustPrograms (ps1 ++ ps2) (c.id.getD "unknown")
            (lookupOffset offs (c.id.getD "unknown") dflt) st).1.drop ps1.length =
          (adjustPrograms (ps1 ++ ps2) (c.id.getD "unknown")
            (lookupOffset offs (c.id.getD "unknown") dflt) st).1 :=
      List.take_append_drop _ _
    have htk :
        ((adjustPrograms (ps1 ++ ps2) (c.id.getD "unknown")
            (lookupOffset offs (c.id.getD "unknown") dflt) st).1.take
          ps1.length).length = ps1.length := by
      rw [List.length_take]
      exact Nat.min_eq_left hlen
    rw [ih (fun x hx => h x (List.mem_cons_of_mem c hx)) _ _ offs dflt _]
    rw [htk, hsplit]

/-- Claim C10: a programme whose `channel` attribute matches no channel
element's id is never adjusted: `process_xml` leaves it byte-identical
at its position, and both the counters and the error list are exactly
those of the same document without that programme (it is counted in
neither `programs_processed` nor `errors`). -/
theorem c10_orphan_untouched (chs : List Channel) (ps1 ps2 : List Program)
    (p : Program) (offs : List (String × Int)) (dflt : Int) (st : AdjusterStats)
    (h : ∀ c ∈ chs, ¬ c.id.getD "unknown" = p.channel) :
    process_xml ⟨chs, ps1 ++ p :: ps2⟩ offs dflt st =
      (⟨chs,
        (process_xml ⟨chs, ps1 ++ ps2⟩ offs dflt st).1.programmes.take ps1.length ++
          p :: (process_xml ⟨chs, ps1 ++ ps2⟩ offs dflt
            st).1.programmes.drop ps1.length⟩,
       (process_xml ⟨chs, ps1 ++ ps2⟩ offs dflt st).2) := by
  simp only [process_xml]
  rw [processChannels_frame p chs h ps1 ps2 offs dflt st]

/-- Claim C10, witnessed: a programme on channel `orphan` in a document
whose only channel element is `c1` is left byte-identical while its
sibling is adjusted, and the statistics equal those of the document
without the orphan (1 channel, 1 programme, no errors). -/
theorem c10_orphan_untouched_witness :
    process_xml
        ⟨[⟨some "c1"⟩],
         [⟨"c1", some "20250101120000 +0000", none⟩] ++
           ⟨"orphan", some "20250101120000 +0000", some "20250101130000 +0000"⟩ ::
             []⟩ [] 30 initStats =
      (⟨[⟨some "c1"⟩],
        (process_xml ⟨[⟨some "c1"⟩],
          [⟨"c1", some "20250101120000 +0000", none⟩] ++ []⟩ [] 30
            initStats).1.programmes.take 1 ++
          ⟨"orphan", some "20250101120000 +0000", some "20250101130000 +0000"⟩ ::
            (process_xml ⟨[⟨some "c1"⟩],
              [⟨"c1", some "20250101120000 +0000", none⟩] ++ []⟩ [] 30
                initStats).1.programmes.drop 1⟩,
       (process_xml ⟨[⟨some "c1"⟩],
         [⟨"c1", some "20250101120000 +0000", none⟩] ++ []⟩ [] 30
           initStats).2) :=
  c10_orphan_untouched [⟨some "c1"⟩]
    [⟨"c1", some "20250101120000 +0000", none⟩] []
    ⟨"orphan", some "20250101120000 +0000", some "20250101130000 +0000"⟩
    [] 30 initStats (by decide)

/-- Claim C8 counterexample, in both failure shapes: formatting the
parse of the valid bare input `"20250101120000"` yields
`"20250101120000 +0000"`, not the input (`format_datetime` always
appends a literal zone token); and for the valid input
`"00250101120000"` the year is re-emitted unpadded (`%Y` on glibc), so
not even the zone-suffixed round trip survives — the program returns
`"250101120000 +0000"`. -/
theorem c8_counterexample :
    (parse_datetime "20250101120000").map format_datetime ≠
      some "20250101120000" ∧
    (parse_datetime "00250101120000").map format_datetime ≠
      some "00250101120000 +0000" :=
  ⟨by decide, by decide⟩

/-- Characters are equal when their code points are. -/
theorem char_eq_of_toNat_eq {c d : Char} (h : c.toNat = d.toNat) : c = d :=
  Char.ext (UInt32.ext h)

/-- Rendering the value of an ASCII digit gives the digit back. -/
theorem digitChar_toNat_sub {c : Char} (h : isDigitChar c = true) :
    digitChar (c.toNat - 48) = c := by
  have hb : 48 ≤ c.toNat ∧ c.toNat ≤ 57 := by
    simpa [isDigitChar, Bool.and_eq_true, decide_eq_true_eq] using h
  have hc : c.toNat = 48 ∨ c.toNat = 49 ∨ c.toNat = 50 ∨ c.toNat = 51 ∨
      c.toNat = 52 ∨ c.toNat = 53 ∨ c.toNat = 54 ∨ c.toNat = 55 ∨
      c.toNat = 56 ∨ c.toNat = 57 := by omega
  rcases hc with h1 | h1 | h1 | h1 | h1 | h1 | h1 | h1 | h1 | h1
  · obtain rfl : c = '0' := char_eq_of_toNat_eq (h1.trans rfl); rfl
  · obtain rfl : c = '1' := char_eq_of_toNat_eq (h1.trans rfl); rfl
  · obtain rfl : c = '2' := char_eq_of_toNat_eq (h1.trans rfl); rfl
  · obtain rfl : c = '3' := char_eq_of_toNat_eq (h1.trans rfl); rfl
  · obtain rfl : c = '4' := char_eq_of_toNat_eq (h1.trans rfl); rfl
  · obtain rfl : c = '5' := char_eq_of_toNat_eq (h1.trans rfl); rfl
  · obtain rfl : c = '6' := char_eq_of_toNat_eq (h1.trans rfl); rfl
  · obtain rfl : c = '7' := char_eq_of_toNat_eq (h1.trans rfl); rfl
  · obtain rfl : c = '8' := char_eq_of_toNat_eq (h1.trans rfl); rfl
  · obtain rfl : c = '9' := char_eq_of_toNat_eq (h1.trans rfl); rfl

/-- Splitting at the first space is the identity on space-free input. -/
theorem takeUntilSpace_eq_self : ∀ {cs : List Char},
    (∀ c ∈ cs, ¬ c = ' ') → takeUntilSpace cs = cs
  | [], _ => rfl
  | c :: cs, h => by
    rw [takeUntilSpace, if_neg (h c (List.mem_cons_self c cs)),
      takeUntilSpace_eq_self (fun x hx => h x (List.mem_cons_of_mem _ hx))]

/-- Two-digit round trip: rendering the value of a 2-digit string gives
the string back. -/
theorem render2_digits (cs : List Char) (hl : cs.length = 2)
    (hd : ∀ c ∈ cs, isDigitChar c = true) :
    render2 (digitsToNat cs) = cs := by
  cases cs with
  | nil => simp at hl
  | cons a cs =>
    cases cs with
    | nil => simp at hl
    | cons b cs =>
      cases cs with
      | cons e cs => simp at hl
      | nil =>
        have ha : 48 ≤ a.toNat ∧ a.toNat ≤ 57 := by
          simpa [isDigitChar, Bool.and_eq_true, decide_eq_true_eq] using
            hd a (by simp)
        have hb : 48 ≤ b.toNat ∧ b.toNat ≤ 57 := by
          simpa [isDigitChar, Bool.and_eq_true, decide_eq_true_eq] using
            hd b (by simp)
        have hn : digitsToNat [a, b] = (a.toNat - 48) * 10 + (b.toNat - 48) := by
          simp [digitsToNat, List.foldl]
        rw [render2, hn]
        have e1 : ((a.toNat - 48) * 10 + (b.toNat - 48)) / 10 % 10 =
            a.toNat - 48 := by omega
        have e2 : ((a.toNat - 48) * 10 + (b.toNat - 48)) % 10 =
            b.toNat - 48 := by omega
        rw [e1, e2, digitChar_toNat_sub (hd a (by simp)),
          digitChar_toNat_sub (hd b (by simp))]

/-- Four-digit round trip for the unpadded year rendering: a 4-digit
string whose value is at least 1000 renders back to itself. -/
theorem renderYear_digits4 (cs : List Char) (hl : cs.length = 4)
    (hd : ∀ c ∈ cs, isDigitChar c = true)
    (hge : 1000 ≤ digitsToNat cs) :
    renderYear (digitsToNat cs) = cs := by
  cases cs with
  | nil => simp at hl
  | cons a cs =>
    cases cs with
    | nil => simp at hl
    | cons b cs =>
      cases cs with
      | nil => simp at hl
      | cons c cs =>
        cases cs with
        | nil => simp at hl
        | cons d cs =>
          cases cs with
          | cons e cs => simp at hl
          | nil =>
            have ha : 48 ≤ a.toNat ∧ a.toNat ≤ 57 := by
              simpa [isDigitChar, Bool.and_eq_true, decide_eq_true_eq] using
                hd a (by simp)
            have hb : 48 ≤ b.toNat ∧ b.toNat ≤ 57 := by
              simpa [isDigitChar, Bool.and_eq_true, decide_eq_true_eq] using
                hd b (by simp)
            have hc : 48 ≤ c.toNat ∧ c.toNat ≤ 57 := by
              simpa [isDigitChar, Bool.and_eq_true, decide_eq_true_eq] using
                hd c (by simp)
            have hd' : 48 ≤ d.toNat ∧ d.toNat ≤ 57 := by
              simpa [isDigitChar, Bool.and_eq_true, decide_eq_true_eq] using
                hd d (by simp)
            have hn : digitsToNat [a, b, c, d] =
                (((a.toNat - 48) * 10 + (b.toNat - 48)) * 10 +
                  (c.toNat - 48)) * 10 + (d.toNat - 48) := by
              simp [digitsToNat, List.foldl]
            rw [hn] at hge
            rw [renderYear, hn]
            rw [if_neg (by omega), if_neg (by omega), if_neg (by omega)]
            have e1 : ((((a.toNat - 48) * 10 + (b.toNat - 48)) * 10 +
                (c.toNat - 48)) * 10 + (d.toNat - 48)) / 1000 % 10 =
                a.toNat - 48 := by omega
            have e2 : ((((a.toNat - 48) * 10 + (b.toNat - 48)) * 10 +
                (c.toNat - 48)) * 10 + (d.toNat - 48)) / 100 % 10 =
                b.toNat - 48 := by omega
            have e3 : ((((a.toNat - 48) * 10 + (b.toNat - 48)) * 10 +
                (c.toNat - 48)) * 10 + (d.toNat - 48)) / 10 % 10 =
                c.toNat - 48 := by omega
            have e4 : ((((a.toNat - 48) * 10 + (b.toNat - 48)) * 10 +
                (c.toNat - 48)) * 10 + (d.toNat - 48)) % 10 =
                d.toNat - 48 := by omega
            rw [e1, e2, e3, e4, digitChar_toNat_sub (hd a (by simp)),
              digitChar_toNat_sub (hd b (by simp)),
              digitChar_toNat_sub (hd c (by simp)),
              digitChar_toNat_sub (hd d (by simp))]

/-- A success of the backtracking search comes from some candidate. -/
theorem firstSome_eq_some {α β : Type} {f : α → Option β} {l : List α} {b : β}
    (h : firstSome f l = some b) : ∃ a ∈ l, f a = some b := by
  induction l with
  | nil => cases h
  | cons x xs ih =>
    rw [firstSome] at h
    cases hx : f x with
    | some b2 =>
      rw [hx] at h
      exact ⟨x, List.mem_cons_self x xs, by rw [hx]; exact h⟩
    | none =>
      rw [hx] at h
      obtain ⟨a, ha, hfa⟩ := ih h
      exact ⟨a, List.mem_cons_of_mem _ ha, hfa⟩

/-- Anything a two-digit alternative produces: its remainder, the two
digit characters consumed, and the captured value. -/
theorem cand2_sound {c1 c2 : Char} {rest : List Char} {cond : Bool}
    {vr : Nat × List Char} (h : vr ∈ cand2 c1 c2 rest cond) :
    vr.2 = rest ∧ isDigitChar c1 = true ∧ isDigitChar c2 = true ∧
      vr.1 = digitsToNat [c1, c2] := by
  rw [cand2] at h
  by_cases hb : (isDigitChar c1 && isDigitChar c2 && cond) = true
  · rw [if_pos hb] at h
    rw [List.mem_singleton] at h
    subst h
    simp only [Bool.and_eq_true] at hb
    exact ⟨rfl, hb.1.1, hb.1.2, rfl⟩
  · rw [if_neg hb] at h
    cases h

/-- Anything a one-digit alternative produces. -/
theorem cand1_sound {c1 : Char} {rest : List Char} {cond : Bool}
    {vr : Nat × List Char} (h : vr ∈ cand1 c1 rest cond) :
    vr.2 = rest ∧ isDigitChar c1 = true ∧ vr.1 = digitsToNat [c1] := by
  rw [cand1] at h
  by_cases hb : (isDigitChar c1 && cond) = true
  · rw [if_pos hb] at h
    rw [List.mem_singleton] at h
    subst h
    simp only [Bool.and_eq_true] at hb
    exact ⟨rfl, hb.1, rfl⟩
  · rw [if_neg hb] at h
    cases h

/-- The `%Y` group consumes exactly four digits with their value. -/
theorem matchYear_sound {cs : List Char} {vr : Nat × List Char}
    (h : vr ∈ matchYear cs) :
    ∃ chunk, cs = chunk ++ vr.2 ∧ chunk.length = 4 ∧
      (∀ c ∈ chunk, isDigitChar c = true) ∧ vr.1 = digitsToNat chunk := by
  cases cs with
  | nil => simp [matchYear] at h
  | cons c1 t1 =>
    cases t1 with
    | nil => simp [matchYear] at h
    | cons c2 t2 =>
      cases t2 with
      | nil => simp [matchYear] at h
      | cons c3 t3 =>
        cases t3 with
        | nil => simp [matchYear] at h
        | cons c4 rest =>
          rw [matchYear] at h
          by_cases hb : (isDigitChar c1 && isDigitChar c2 && isDigitChar c3 &&
              isDigitChar c4) = true
          · rw [if_pos hb] at h
            rw [List.mem_singleton] at h
            subst h
            simp only [Bool.and_eq_true] at hb
            refine ⟨[c1, c2, c3, c4], rfl, rfl, ?_, rfl⟩
            intro c hc
            simp only [List.mem_cons, List.not_mem_nil, or_false] at hc
            rcases hc with rfl | rfl | rfl | rfl
            · exact hb.1.1.1
            · exact hb.1.1.2
            · exact hb.1.2
            · exact hb.2
          · rw [if_neg hb] at h
            cases h

/-- Chunk form of a two-digit alternative's candidate. -/
theorem cand2_case {c1 c2 : Char} {rest : List Char} {cond : Bool}
    {vr : Nat × List Char} (h : vr ∈ cand2 c1 c2 rest cond) :
    ∃ chunk, (c1 :: c2 :: rest : List Char) = chunk ++ vr.2 ∧
      1 ≤ chunk.length ∧ chunk.length ≤ 2 ∧
      (∀ c ∈ chunk, isDigitChar c = true) ∧ vr.1 = digitsToNat chunk := by
  obtain ⟨hr, hda, hdb, hv⟩ := cand2_sound h
  refine ⟨[c1, c2], by rw [hr]; rfl, by simp, by simp, ?_, hv⟩
  intro c hc
  simp only [List.mem_cons, List.not_mem_nil, or_false] at hc
  rcases hc with rfl | rfl
  · exact hda
  · exact hdb

/-- Chunk form of a one-digit alternative's candidate, two or more
characters remaining. -/
theorem cand1_case2 {c1 c2 : Char} {rest : List Char} {cond : Bool}
    {vr : Nat × List Char} (h : vr ∈ cand1 c1 (c2 :: rest) cond) :
    ∃ chunk, (c1 :: c2 :: rest : List Char) = chunk ++ vr.2 ∧
      1 ≤ chunk.length ∧ chunk.length ≤ 2 ∧
      (∀ c ∈ chunk, isDigitChar c = true) ∧ vr.1 = digitsToNat chunk := by
  obtain ⟨hr, hd1, hv⟩ := cand1_sound h
  refine ⟨[c1], by rw [hr]; rfl, by simp, by simp, ?_, hv⟩
  intro c hc
  simp only [List.mem_singleton] at hc
  subst hc
  exact hd1

/-- Chunk form of a one-digit alternative's candidate on the last
character. -/
theorem cand1_case1 {c1 : Char} {cond : Bool}
    {vr : Nat × List Char} (h : vr ∈ cand1 c1 [] cond) :
    ∃ chunk, ([c1] : List Char) = chunk ++ vr.2 ∧
      1 ≤ chunk.length ∧ chunk.length ≤ 2 ∧
      (∀ c ∈ chunk, isDigitChar c = true) ∧ vr.1 = digitsToNat chunk := by
  obtain ⟨hr, hd1, hv⟩ := cand1_sound h
  refine ⟨[c1], by rw [hr, List.append_nil], by simp, by simp, ?_, hv⟩
  intro c hc
  simp only [List.mem_singleton] at hc
  subst hc
  exact hd1

/-- Shape of any candidate of the `%m` group. -/
theorem matchMonth_sound {cs : List Char} {vr : Nat × List Char}
    (h : vr ∈ matchMonth cs) :
    ∃ chunk, cs = chunk ++ vr.2 ∧ 1 ≤ chunk.length ∧ chunk.length ≤ 2 ∧
      (∀ c ∈ chunk, isDigitChar c = true) ∧ vr.1 = digitsToNat chunk := by
  cases cs with
  | nil => simp [matchMonth] at h
  | cons c1 t1 =>
    cases t1 with
    | nil =>
      rw [matchMonth] at h
      exact cand1_case1 h
    | cons c2 rest =>
      rw [matchMonth] at h
      rcases List.mem_append.mp h with hAB | h1
      · rcases List.mem_append.mp hAB with h2a | h2b
        · exact cand2_case h2a
        · exact cand2_case h2b
      · exact cand1_case2 h1

/-- Shape of any candidate of the `%d` group. -/
theorem matchDay_sound {cs : List Char} {vr : Nat × List Char}
    (h : vr ∈ matchDay cs) :
    ∃ chunk, cs = chunk ++ vr.2 ∧ 1 ≤ chunk.length ∧ chunk.length ≤ 2 ∧
      (∀ c ∈ chunk, isDigitChar c = true) ∧ vr.1 = digitsToNat chunk := by
  cases cs with
  | nil => simp [matchDay] at h
  | cons c1 t1 =>
    cases t1 with
    | nil =>
      rw [matchDay] at h
      exact cand1_case1 h
    | cons c2 rest =>
      rw [matchDay] at h
      rcases List.mem_append.mp h with hABC | h1
      · rcases List.mem_append.mp hABC with hAB | h2c
        · rcases List.mem_append.mp hAB with h2a | h2b
          · exact cand2_case h2a
          · exact cand2_case h2b
        · exact cand2_case h2c
      · exact cand1_case2 h1

/-- Shape of any candidate of the `%H` group. -/
theorem matchHour_sound {cs : List Char} {vr : Nat × List Char}
    (h : vr ∈ matchHour cs) :
    ∃ chunk, cs = chunk ++ vr.2 ∧ 1 ≤ chunk.length ∧ chunk.length ≤ 2 ∧
      (∀ c ∈ chunk, isDigitChar c = true) ∧ vr.1 = digitsToNat chunk := by
  cases cs with
  | nil => simp [matchHour] at h
  | cons c1 t1 =>
    cases t1 with
    | nil =>
      rw [matchHour] at h
      exact cand1_case1 h
    | cons c2 rest =>
      rw [matchHour] at h
      rcases List.mem_append.mp h with hAB | h1
      · rcases List.mem_append.mp hAB with h2a | h2b
        · exact cand2_case h2a
        · exact cand2_case h2b
      · exact cand1_case2 h1

/-- Shape of any candidate of the `%M` group. -/
theorem matchMinute_sound {cs : List Char} {vr : Nat × List Char}
    (h : vr ∈ matchMinute cs) :
    ∃ chunk, cs = chunk ++ vr.2 ∧ 1 ≤ chunk.length ∧ chunk.length ≤ 2 ∧
      (∀ c ∈ chunk, isDigitChar c = true) ∧ vr.1 = digitsToNat chunk := by
  cases cs with
  | nil => simp [matchMinute] at h
  | cons c1 t1 =>
    cases t1 with
    | nil =>
      rw [matchMinute] at h
      exact cand1_case1 h
    | cons c2 rest =>
      rw [matchMinute] at h
      rcases List.mem_append.mp h with h2a | h1
      · exact cand2_case h2a
      · exact cand1_case2 h1

/-- Shape of any candidate of the `%S` group. -/
theorem matchSecond_sound {cs : List Char} {vr : Nat × List Char}
    (h : vr ∈ matchSecond cs) :
    ∃ chunk, cs = chunk ++ vr.2 ∧ 1 ≤ chunk.length ∧ chunk.length ≤ 2 ∧
      (∀ c ∈ chunk, isDigitChar c = true) ∧ vr.1 = digitsToNat chunk := by
  cases cs with
  | nil => simp [matchSecond] at h
  | cons c1 t1 =>
    cases t1 with
    | nil =>
      rw [matchSecond] at h
      exact cand1_case1 h
    | cons c2 rest =>
      rw [matchSecond] at h
      rcases List.mem_append.mp h with hAB | h1
      · rcases List.mem_append.mp hAB with h2a | h2b
        · exact cand2_case h2a
        · exact cand2_case h2b
      · exact cand1_case2 h1

/-- Soundness of the whole `strptime` match: a success decomposes the
input into a 4-digit year chunk and five 1–2-digit chunks whose decimal
values are the six captured fields, with nothing left over. -/
theorem strptime_sound {cs : List Char} {y mo d h mi sec : Nat}
    (hst : strptimeYmdHMS cs = some (y, mo, d, h, mi, sec)) :
    ∃ cy cm cd ch cmi csec : List Char,
      cs = cy ++ (cm ++ (cd ++ (ch ++ (cmi ++ csec)))) ∧
      cy.length = 4 ∧
      (1 ≤ cm.length ∧ cm.length ≤ 2) ∧
      (1 ≤ cd.length ∧ cd.length ≤ 2) ∧
      (1 ≤ ch.length ∧ ch.length ≤ 2) ∧
      (1 ≤ cmi.length ∧ cmi.length ≤ 2) ∧
      (1 ≤ csec.length ∧ csec.length ≤ 2) ∧
      (∀ c ∈ cy, isDigitChar c = true) ∧
      (∀ c ∈ cm, isDigitChar c = true) ∧
      (∀ c ∈ cd, isDigitChar c = true) ∧
      (∀ c ∈ ch, isDigitChar c = true) ∧
      (∀ c ∈ cmi, isDigitChar c = true) ∧
      (∀ c ∈ csec, isDigitChar c = true) ∧
      y = digitsToNat cy ∧ mo = digitsToNat cm ∧ d = digitsToNat cd ∧
      h = digitsToNat ch ∧ mi = digitsToNat cmi ∧ sec = digitsToNat csec := by
  rw [strptimeYmdHMS] at hst
  obtain ⟨yc, hyc, h1⟩ := firstSome_eq_some hst
  obtain ⟨mc, hmc, h2⟩ := firstSome_eq_some h1
  obtain ⟨dc, hdc, h3⟩ := firstSome_eq_some h2
  obtain ⟨hc, hhc, h4⟩ := firstSome_eq_some h3
  obtain ⟨mic, hmic, h5⟩ := firstSome_eq_some h4
  obtain ⟨sc, hsc, h6⟩ := firstSome_eq_some h5
  by_cases hemp : sc.2 = []
  case neg => rw [if_neg hemp] at h6; cases h6
  case pos =>
  rw [if_pos hemp] at h6
  simp only [Option.some.injEq, Prod.mk.injEq] at h6
  obtain ⟨hy, hmo, hd0, hh, hmi0, hsec0⟩ := h6
  obtain ⟨cy, hcy, hly, hdy, hvy⟩ := matchYear_sound hyc
  obtain ⟨cm, hcm, hlm1, hlm2, hdm, hvm⟩ := matchMonth_sound hmc
  obtain ⟨cd, hcd, hld1, hld2, hdd, hvd⟩ := matchDay_sound hdc
  obtain ⟨ch, hch, hlh1, hlh2, hdh, hvh⟩ := matchHour_sound hhc
  obtain ⟨cmi, hcmi, hlmi1, hlmi2, hdmi, hvmi⟩ := matchMinute_sound hmic
  obtain ⟨csec, hcsec, hlsec1, hlsec2, hdsec, hvsec⟩ := matchSecond_sound hsc
  refine ⟨cy, cm, cd, ch, cmi, csec, ?_, hly, ⟨hlm1, hlm2⟩, ⟨hld1, hld2⟩,
    ⟨hlh1, hlh2⟩, ⟨hlmi1, hlmi2⟩, ⟨hlsec1, hlsec2⟩,
    hdy, hdm, hdd, hdh, hdmi, hdsec,
    hy.symm.trans hvy, hmo.symm.trans hvm, hd0.symm.trans hvd,
    hh.symm.trans hvh, hmi0.symm.trans hvmi, hsec0.symm.trans hvsec⟩
  rw [hcy, hcm, hcd, hch, hcmi, hcsec, hemp, List.append_nil]

/-- Claim C8 as amended: for a valid bare 14-digit `YYYYMMDDHHMMSS`
string whose year field is at least 1000, formatting the parse returns
the input with the literal `" +0000"` zone token appended (so the round
trip returns the input unchanged exactly when it already carries that
token); years below 1000 are excluded because `%Y` re-emits them
without their leading zeros. -/
theorem c8_amended (s : String) (dt : DateTime)
    (hlen : s.data.length = 14) (hdig : s.data.all isDigitChar = true)
    (hyear : 1000 ≤ dt.year)
    (hp : parse_datetime s = some dt) :
    format_datetime dt = ⟨s.data ++ (" +0000").data⟩ := by
  have hall : ∀ c ∈ s.data, isDigitChar c = true := by
    rw [List.all_eq_true] at hdig
    exact fun c hc => hdig c hc
  have hns : ∀ c ∈ s.data, ¬ c = ' ' := by
    intro c hc heq
    subst heq
    have := hall _ hc
    exact absurd this (by decide)
  rw [parse_datetime, takeUntilSpace_eq_self hns] at hp
  split at hp
  case h_1 => cases hp
  case h_2 y mo d h mi sec hst =>
    split at hp
    case isFalse => exact absurd hp (by simp)
    case isTrue hcond =>
    simp only [Option.some.injEq] at hp
    subst hp
    obtain ⟨cy, cm, cd, ch, cmi, csec, hcs, hly, hlm, hld, hlh, hlmi, hlsec,
      hdy, hdm, hdd, hdh, hdmi, hdsec, hvy, hvm, hvd, hvh, hvmi, hvsec⟩ :=
      strptime_sound hst
    have hlens : cm.length = 2 ∧ cd.length = 2 ∧ ch.length = 2 ∧
        cmi.length = 2 ∧ csec.length = 2 := by
      have hL := congrArg List.length hcs
      simp only [List.length_append, hlen, hly] at hL
      omega
    have hyear' : 1000 ≤ digitsToNat cy := by
      rw [← hvy]
      exact hyear
    have hry : renderYear y = cy := by
      rw [hvy]
      exact renderYear_digits4 cy hly hdy hyear'
    have hrm : render2 mo = cm := by
      rw [hvm]
      exact render2_digits cm hlens.1 hdm
    have hrd : render2 d = cd := by
      rw [hvd]
      exact render2_digits cd hlens.2.1 hdd
    have hrh : render2 h = ch := by
      rw [hvh]
      exact render2_digits ch hlens.2.2.1 hdh
    have hrmi : render2 mi = cmi := by
      rw [hvmi]
      exact render2_digits cmi hlens.2.2.2.1 hdmi
    have hrsec : render2 sec = csec := by
      rw [hvsec]
      exact render2_digits csec hlens.2.2.2.2 hdsec
    rw [format_datetime]
    refine congrArg String.mk ?_
    show renderYear y ++ render2 mo ++ render2 d ++ render2 h ++
        render2 mi ++ render2 sec ++ (" +0000").data =
      s.data ++ (" +0000").data
    rw [hry, hrm, hrd, hrh, hrmi, hrsec, hcs]
    simp [List.append_assoc]

/-- Claim C8 amended, witnessed on the bare input `"20250101120000"`. -/
theorem c8_amended_witness :
    format_datetime ⟨2025, 1, 1, 12, 0, 0⟩ =
      ⟨("20250101120000").data ++ (" +0000").data⟩ :=
  c8_amended "20250101120000" ⟨2025, 1, 1, 12, 0, 0⟩ (by decide) (by decide)
    (by decide) rfl

/-- Unfolding of `cleanup_old_files` with cleanup enabled, its `let`s spelled
out: keep exactly the entries whose name was not deleted. -/
theorem cleanup_old_files_enabled (k : Nat) (dir : List FileEntry)
    (deleteOk : List Char → Bool) :
    cleanup_old_files true k dir deleteOk =
      dir.filter (fun f =>
        !((((List.insertionSort mtimeGe
                (dir.filter (fun g => generationPattern g.name))).drop k).map
            (deletionsFor dir deleteOk)).flatten.contains f.name)) := rfl

/-- Which names the deletion loop removes. -/
theorem mem_deleted_iff {dir : List FileEntry} {deleteOk : List Char → Bool}
    {victims : List FileEntry} {n : List Char} :
    n ∈ ((victims.map (deletionsFor dir deleteOk)).flatten) ↔
      ∃ v, v ∈ victims ∧ deleteOk v.name = true ∧
        (n = v.name ∨ (n = gzName v.name ∧
          dir.any (fun f => f.name == gzName v.name) = true ∧
          deleteOk (gzName v.name) = true)) := by
  rw [List.mem_flatten]
  constructor
  · rintro ⟨l, hl, hn⟩
    rw [List.mem_map] at hl
    obtain ⟨v, hv, rfl⟩ := hl
    rw [deletionsFor] at hn
    by_cases hok : deleteOk v.name = true
    · rw [if_pos hok] at hn
      rcases List.mem_cons.mp hn with rfl | hn'
      · exact ⟨v, hv, hok, Or.inl rfl⟩
      · by_cases hgz : (dir.any (fun f => f.name == gzName v.name) &&
            deleteOk (gzName v.name)) = true
        · rw [if_pos hgz] at hn'
          rw [List.mem_singleton] at hn'
          rw [Bool.and_eq_true] at hgz
          exact ⟨v, hv, hok, Or.inr ⟨hn', hgz.1, hgz.2⟩⟩
        · rw [if_neg hgz] at hn'
          cases hn'
    · rw [if_neg (by simpa using hok)] at hn
      cases hn
  · rintro ⟨v, hv, hok, hcase⟩
    refine ⟨deletionsFor dir deleteOk v, List.mem_map.mpr ⟨v, hv, rfl⟩, ?_⟩
    rw [deletionsFor, if_pos hok]
    rcases hcase with rfl | ⟨rfl, hany, hgok⟩
    · exact List.mem_cons_self _ _
    · rw [if_pos (by rw [Bool.and_eq_true]; exact ⟨hany, hgok⟩)]
      exact List.mem_cons_of_mem _ (List.mem_singleton.mpr rfl)

/-- The suffix `".xml"` never ends a `".gz"`-suffixed name. -/
theorem xml_not_suffix_gz (w : List Char) :
    ((".xml").data.isSuffixOf (w ++ (".gz").data)) = false := by
  rw [Bool.eq_false_iff]
  intro h
  rw [List.isSuffixOf_iff_suffix] at h
  obtain ⟨t, ht⟩ := h
  have h2 := congrArg List.reverse ht
  rw [List.reverse_append, List.reverse_append] at h2
  simp at h2

/-- A compressed sibling never matches the generation pattern. -/
theorem generationPattern_gz (w : List Char) :
    generationPattern (gzName w) = false := by
  rw [generationPattern, gzName, xml_not_suffix_gz, Bool.and_false]

/-- Negated `contains` is non-membership (lawful `BEq`). -/
theorem not_contains_iff {α : Type} [BEq α] [LawfulBEq α] (l : List α) (a : α) :
    ((!(l.contains a)) = true) ↔ a ∉ l := by
  simp [List.contains]

/-- A filter that erases exactly the dropped part of a sorted
permutation leaves (a permutation of) the taken part. -/
theorem filter_perm_take {α : Type} (p : α → Bool) (l srt : List α) (k : Nat)
    (hperm : List.Perm srt l)
    (hdrop : (srt.drop k).filter p = [])
    (htake : (srt.take k).filter p = srt.take k) :
    List.Perm (l.filter p) (srt.take k) := by
  have h1 : List.Perm (l.filter p) (srt.filter p) := List.Perm.filter p hperm.symm
  have h2 : srt.filter p = srt.take k := by
    have h3 : srt.filter p = (srt.take k ++ srt.drop k).filter p := by
      rw [List.take_append_drop]
    rw [h3, List.filter_append, htake, hdrop, List.append_nil]
  rwa [h2] at h1

/-- Claim C4: with cleanup enabled, `max_backup_files = k` and more
than `k` generation files on disk (distinct names and distinct
modification times), a successful cleanup leaves exactly `k` files
matching the `schedule_adjusted_*.xml` pattern, namely the `k` most
recent by modification time; every deleted generation disappears in
both its plain and `.gz` forms; and with an arbitrary per-file deletion
oracle, one generation's failure never prevents another generation's
deletion (the loop continues past failures). -/
theorem c4_retention (dir : List FileEntry) (k : Nat)
    (hnames : (dir.map FileEntry.name).Nodup)
    (hmts : ((dir.filter (fun f => generationPattern f.name)).map
      FileEntry.mtime).Nodup)
    (hk : k < (dir.filter (fun f => generationPattern f.name)).length) :
    ((cleanup_old_files true k dir (fun _ => true)).filter
        (fun f => generationPattern f.name)).length = k ∧
    (∀ x ∈ (cleanup_old_files true k dir (fun _ => true)).filter
        (fun f => generationPattern f.name),
      ∀ y ∈ dir.filter (fun f => generationPattern f.name),
        y ∉ (cleanup_old_files true k dir (fun _ => true)).filter
          (fun f => generationPattern f.name) →
        y.mtime < x.mtime) ∧
    (∀ y ∈ dir.filter (fun f => generationPattern f.name),
      y ∉ (cleanup_old_files true k dir (fun _ => true)).filter
        (fun f => generationPattern f.name) →
      ∀ f ∈ cleanup_old_files true k dir (fun _ => true),
        ¬ f.name = y.name ∧ ¬ f.name = gzName y.name) ∧
    (∀ (deleteOk : List Char → Bool),
      ∀ y ∈ dir.filter (fun f => generationPattern f.name),
        y ∉ (cleanup_old_files true k dir (fun _ => true)).filter
          (fun f => generationPattern f.name) →
        deleteOk y.name = true →
        y ∉ cleanup_old_files true k dir deleteOk) := by
  have hperm : List.Perm
      (List.insertionSort mtimeGe
        (dir.filter (fun f => generationPattern f.name)))
      (dir.filter (fun f => generationPattern f.name)) :=
    List.perm_insertionSort mtimeGe _
  have hdirnd : dir.Nodup := List.Nodup.of_map _ hnames
  have hmatchnd : (dir.filter (fun f => generationPattern f.name)).Nodup :=
    hdirnd.filter _
  have hsortnd : (List.insertionSort mtimeGe
      (dir.filter (fun f => generationPattern f.name))).Nodup :=
    (List.Perm.nodup_iff hperm).mpr hmatchnd
  have hinjname : ∀ ⦃x⦄, x ∈ dir → ∀ ⦃y⦄, y ∈ dir → x.name = y.name → x = y :=
    List.inj_on_of_nodup_map hnames
  have hinjmt : ∀ ⦃x⦄, x ∈ dir.filter (fun f => generationPattern f.name) →
      ∀ ⦃y⦄, y ∈ dir.filter (fun f => generationPattern f.name) →
      x.mtime = y.mtime → x = y :=
    List.inj_on_of_nodup_map hmts
  have hsorted : List.Sorted mtimeGe (List.insertionSort mtimeGe
      (dir.filter (fun f => generationPattern f.name))) :=
    List.sorted_insertionSort mtimeGe _
  have hvictsub : ∀ {v}, v ∈ (List.insertionSort mtimeGe
      (dir.filter (fun f => generationPattern f.name))).drop k →
      v ∈ dir.filter (fun f => generationPattern f.name) :=
    fun hv => (List.Perm.mem_iff hperm).mp (List.drop_subset _ _ hv)
  have hdel_iff : ∀ {x}, x ∈ dir.filter (fun f => generationPattern f.name) →
      (x.name ∈ ((((List.insertionSort mtimeGe
          (dir.filter (fun f => generationPattern f.name))).drop k).map
        (deletionsFor dir (fun _ => true))).flatten) ↔
        x ∈ (List.insertionSort mtimeGe
          (dir.filter (fun f => generationPattern f.name))).drop k) := by
    intro x hx
    constructor
    · intro hmem
      rw [mem_deleted_iff] at hmem
      obtain ⟨v, hv, -, hcase⟩ := hmem
      rcases hcase with heq | ⟨heq, -, -⟩
      · have hvdir : v ∈ dir := (List.mem_filter.mp (hvictsub hv)).1
        have hxdir : x ∈ dir := (List.mem_filter.mp hx).1
        have hxv : x = v := hinjname hxdir hvdir heq
        rw [hxv]; exact hv
      · have hpatx : generationPattern x.name = true := (List.mem_filter.mp hx).2
        rw [heq, generationPattern_gz] at hpatx
        cases hpatx
    · intro hv
      rw [mem_deleted_iff]
      exact ⟨x, hv, rfl, Or.inl rfl⟩
  have hsurv_mem : ∀ (dok : List Char → Bool) {f},
      f ∈ cleanup_old_files true k dir dok ↔
        f ∈ dir ∧ f.name ∉ ((((List.insertionSort mtimeGe
          (dir.filter (fun g => generationPattern g.name))).drop k).map
            (deletionsFor dir dok)).flatten) := by
    intro dok f
    rw [cleanup_old_files_enabled, List.mem_filter, not_contains_iff]
  have hsp : (cleanup_old_files true k dir (fun _ => true)).filter
      (fun f => generationPattern f.name) =
      (dir.filter (fun f => generationPattern f.name)).filter
        (fun f => !((((List.insertionSort mtimeGe
          (dir.filter (fun g => generationPattern g.name))).drop k).map
            (deletionsFor dir (fun _ => true))).flatten.contains f.name)) := by
    rw [cleanup_old_files_enabled, List.filter_filter, List.filter_filter]
    exact List.filter_congr (fun a _ => Bool.and_comm _ _)
  have hfil_drop : ((List.insertionSort mtimeGe
      (dir.filter (fun f => generationPattern f.name))).drop k).filter
        (fun f => !((((List.insertionSort mtimeGe
          (dir.filter (fun g => generationPattern g.name))).drop k).map
            (deletionsFor dir (fun _ => true))).flatten.contains f.name)) = [] := by
    rw [List.filter_eq_nil_iff]
    intro y hy hcon
    exact absurd ((hdel_iff (hvictsub hy)).mpr hy)
      ((not_contains_iff _ _).mp hcon)
  have hfil_take : ((List.insertionSort mtimeGe
      (dir.filter (fun f => generationPattern f.name))).take k).filter
        (fun f => !((((List.insertionSort mtimeGe
          (dir.filter (fun g => generationPattern g.name))).drop k).map
            (deletionsFor dir (fun _ => true))).flatten.contains f.name)) =
      (List.insertionSort mtimeGe
        (dir.filter (fun f => generationPattern f.name))).take k := by
    rw [List.filter_eq_self]
    intro y hy
    rw [not_contains_iff]
    intro hcon
    have hymatched : y ∈ dir.filter (fun f => generationPattern f.name) :=
      (List.Perm.mem_iff hperm).mp (List.take_subset _ _ hy)
    have hydrop := (hdel_iff hymatched).mp hcon
    have hdisj : List.Disjoint ((List.insertionSort mtimeGe
        (dir.filter (fun f => generationPattern f.name))).take k)
        ((List.insertionSort mtimeGe
          (dir.filter (fun f => generationPattern f.name))).drop k) := by
      apply List.disjoint_of_nodup_append
      rw [List.take_append_drop]
      exact hsortnd
    exact hdisj hy hydrop
  have hsurvperm : List.Perm
      ((cleanup_old_files true k dir (fun _ => true)).filter
        (fun f => generationPattern f.name))
      ((List.insertionSort mtimeGe
        (dir.filter (fun f => generationPattern f.name))).take k) := by
    rw [hsp]
    exact filter_perm_take _ _ _ k hperm hfil_drop hfil_take
  have hdropof : ∀ y ∈ dir.filter (fun f => generationPattern f.name),
      y ∉ (cleanup_old_files true k dir (fun _ => true)).filter
        (fun f => generationPattern f.name) →
      y ∈ (List.insertionSort mtimeGe
        (dir.filter (fun f => generationPattern f.name))).drop k := by
    intro y hym hyn
    have hysort : y ∈ List.insertionSort mtimeGe
        (dir.filter (fun f => generationPattern f.name)) :=
      (List.Perm.mem_iff hperm).mpr hym
    have hy2 : y ∈ (List.insertionSort mtimeGe
        (dir.filter (fun f => generationPattern f.name))).take k ++
        (List.insertionSort mtimeGe
          (dir.filter (fun f => generationPattern f.name))).drop k := by
      rw [List.take_append_drop]; exact hysort
    rcases List.mem_append.mp hy2 with htk | hdp
    · exact absurd ((List.Perm.mem_iff hsurvperm).mpr htk) hyn
    · exact hdp
  refine ⟨?_, ?_, ?_, ?_⟩
  · rw [List.Perm.length_eq hsurvperm, List.length_take,
      List.length_insertionSort]
    exact Nat.min_eq_left (Nat.le_of_lt hk)
  · intro x hx y hy hyn
    have hxtake := (List.Perm.mem_iff hsurvperm).mp hx
    have hydrop := hdropof y hy hyn
    have hpw2 : List.Pairwise mtimeGe ((List.insertionSort mtimeGe
        (dir.filter (fun f => generationPattern f.name))).take k ++
        (List.insertionSort mtimeGe
          (dir.filter (fun f => generationPattern f.name))).drop k) := by
      rw [List.take_append_drop]
      exact hsorted
    have hrel : mtimeGe x y :=
      (List.pairwise_append.mp hpw2).2.2 x hxtake y hydrop
    have hxm : x ∈ dir.filter (fun f => generationPattern f.name) :=
      (List.Perm.mem_iff hperm).mp (List.take_subset _ _ hxtake)
    have hym' := hvictsub hydrop
    have hxyne : ¬ x = y := by
      intro he
      subst he
      have hdisj : List.Disjoint ((List.insertionSort mtimeGe
          (dir.filter (fun f => generationPattern f.name))).take k)
          ((List.insertionSort mtimeGe
            (dir.filter (fun f => generationPattern f.name))).drop k) := by
        apply List.disjoint_of_nodup_append
        rw [List.take_append_drop]
        exact hsortnd
      exact hdisj hxtake hydrop
    exact Nat.lt_of_le_of_ne hrel
      (fun he => hxyne (hinjmt hxm hym' he.symm))
  · intro y hy hyn f hf
    have hydrop := hdropof y hy hyn
    obtain ⟨hfdir, hfnotdel⟩ := (hsurv_mem (fun _ => true)).mp hf
    constructor
    · intro heq
      apply hfnotdel
      rw [heq]
      exact (hdel_iff hy).mpr hydrop
    · intro heq
      apply hfnotdel
      rw [heq, mem_deleted_iff]
      refine ⟨y, hydrop, rfl, Or.inr ⟨rfl, ?_, rfl⟩⟩
      rw [List.any_eq_true]
      exact ⟨f, hfdir, by rw [beq_iff_eq]; exact heq⟩
  · intro dok y hy hyn hok hmem
    have hydrop := hdropof y hy hyn
    obtain ⟨-, hnot⟩ := (hsurv_mem dok).mp hmem
    apply hnot
    rw [mem_deleted_iff]
    exact ⟨y, hydrop, hok, Or.inl rfl⟩

/-- Claim C4, witnessed: two generations with `max_backup_files = 1`
leave exactly one pattern-matching file after cleanup. -/
theorem c4_retention_witness :
    ((cleanup_old_files true 1
        [⟨("schedule_adjusted_a.xml").data, 1⟩,
         ⟨("schedule_adjusted_b.xml").data, 2⟩]
        (fun _ => true)).filter (fun f => generationPattern f.name)).length = 1 :=
  (c4_retention
    [⟨("schedule_adjusted_a.xml").data, 1⟩,
     ⟨("schedule_adjusted_b.xml").data, 2⟩] 1
    (by decide) (by decide) (by decide)).1
